import Mathlib

/-!
Verification of the queuectl job-queue lifecycle subsystem.

The development shallowly embeds the storage layer (`src/storage.py`) and the
lifecycle manager (`src/job_manager.py`).  SQLite rows become a list of `Job`
records; every operation that reads the wall clock in the source
(`get_timestamp()` / `datetime.utcnow()`) takes the current time as an explicit
`now : Nat` parameter (ISO-8601 UTC strings are totally ordered, so `Nat` with
its order is a faithful model of the timestamp comparisons the code performs).
SQL `NULL` columns become `Option` fields.
-/

/-- The five job states of `JobManager.VALID_STATES`. -/
inductive JobState where
  | pending
  | processing
  | completed
  | failed
  | dead
deriving DecidableEq, Repr

/-- One row of the `jobs` table (`storage.py`, `_init_db`). -/
structure Job where
  id : String
  command : String
  state : JobState
  attempts : Nat
  max_retries : Nat
  created_at : Nat
  updated_at : Nat
  scheduled_at : Option Nat
  error_message : Option String
  lock_id : Option String
deriving DecidableEq, Repr

/-- The jobs table: rows in insertion order. -/
abbrev Store := List Job

/-- `Storage.get_job`: `SELECT * FROM jobs WHERE id = ?` (first matching row). -/
def get_job (s : Store) (job_id : String) : Option Job :=
  s.find? fun j => j.id == job_id

/-- `Storage.create_job`: `INSERT INTO jobs ... VALUES (...)`. -/
def create_job (s : Store) (job : Job) : Store :=
  s ++ [job]

/-- The update dictionaries passed to `Storage.update_job` by the lifecycle
manager.  A field holds `some v` when the corresponding key is in the dict
(`some none` writes SQL `NULL`); `none` leaves the column untouched.  The
manager only ever updates these five columns. -/
structure JobUpdates where
  state : Option JobState := none
  attempts : Option Nat := none
  scheduled_at : Option (Option Nat) := none
  error_message : Option (Option String) := none
  lock_id : Option (Option String) := none

/-- Effect of `UPDATE jobs SET ... WHERE ...` on one row; `update_job` always
adds `updated_at = get_timestamp()` to the dict before building the `SET`
clause. -/
def applyUpdates (u : JobUpdates) (j : Job) (now : Nat) : Job :=
  { j with
    state := u.state.getD j.state
    attempts := u.attempts.getD j.attempts
    scheduled_at := u.scheduled_at.getD j.scheduled_at
    error_message := u.error_message.getD j.error_message
    lock_id := u.lock_id.getD j.lock_id
    updated_at := now }

/-- `Storage.update_job`: `UPDATE jobs SET <fields>, updated_at = now WHERE id = ?`. -/
def update_job (s : Store) (job_id : String) (u : JobUpdates) (now : Nat) : Store :=
  s.map fun j => if j.id == job_id then applyUpdates u j now else j

/-- The `WHERE` clause of `Storage.acquire_job_lock`:
`id = ? AND (lock_id IS NULL OR lock_id = '') AND state = 'pending'`. -/
def claimable (j : Job) (job_id : String) : Bool :=
  j.id == job_id && (j.lock_id == none || j.lock_id == some "") &&
    j.state == JobState.pending

/-- `Storage.acquire_job_lock`: the conditional
`UPDATE jobs SET lock_id = ?, state = 'processing', updated_at = ?`;
returns `cursor.rowcount > 0` together with the new table. -/
def acquire_job_lock (s : Store) (job_id lock_id : String) (now : Nat) :
    Bool × Store :=
  (s.any fun j => claimable j job_id,
   s.map fun j =>
     if claimable j job_id then
       { j with lock_id := some lock_id, state := JobState.processing,
                updated_at := now }
     else j)

/-- The per-row effect of the `acquire_job_lock` update (definitionally the
function mapped over the table by `acquire_job_lock`). -/
def claimTransform (job_id lock_id : String) (now : Nat) (j : Job) : Job :=
  if claimable j job_id then
    { j with lock_id := some lock_id, state := JobState.processing,
             updated_at := now }
  else j

/-- `Storage.release_job_lock`:
`UPDATE jobs SET lock_id = NULL, updated_at = ? WHERE id = ? AND lock_id = ?`. -/
def release_job_lock (s : Store) (job_id lock_id : String) (now : Nat) : Store :=
  s.map fun j =>
    if j.id == job_id && j.lock_id == some lock_id then
      { j with lock_id := none, updated_at := now }
    else j

/-- The `WHERE` clause of `Storage.get_ready_jobs`:
`state = 'pending' AND (scheduled_at IS NULL OR scheduled_at <= now)`. -/
def isReady (j : Job) (now : Nat) : Bool :=
  j.state == JobState.pending &&
    (match j.scheduled_at with
     | none => true
     | some t => decide (t ≤ now))

/-- `ORDER BY created_at` comparison. -/
def byCreated (a b : Job) : Bool :=
  decide (a.created_at ≤ b.created_at)

/-- `Storage.get_ready_jobs`: the filtered `SELECT` ordered by `created_at`
with `LIMIT ?`. -/
def get_ready_jobs (s : Store) (now : Nat) (limit : Nat) : List Job :=
  ((s.filter fun j => isReady j now).mergeSort byCreated).take limit

/-- The configuration keys the lifecycle manager reads (`config.py` defaults:
`max_retries = 3`, `backoff_base = 2.0`). -/
structure QConfig where
  max_retries : Nat := 3
  backoff_base : Nat := 2

/-- The error taxonomy raised by `JobManager` (`ValueError` messages). -/
inductive QErr where
  | invalidInput
  | duplicate
  | notFound
  | invalidState
deriving DecidableEq, Repr

/-- The `job_data` dict given to `JobManager.enqueue`; optional keys are
`Option`-valued. -/
structure JobInput where
  id : Option String := none
  command : Option String := none
  max_retries : Option Nat := none
  scheduled_at : Option Nat := none

/-- `utils.calculate_backoff_delay`: `base ** attempts`. -/
def calculate_backoff_delay (attempts : Nat) (base : Nat) : Nat :=
  base ^ attempts

/-- `JobManager.enqueue`: validate required fields, reject duplicate ids,
insert the fresh `pending` record. -/
def enqueue (cfg : QConfig) (s : Store) (input : JobInput) (now : Nat) :
    Except QErr Job × Store :=
  match input.id, input.command with
  | some i, some c =>
    match get_job s i with
    | some _ => (Except.error QErr.duplicate, s)
    | none =>
      let job : Job :=
        { id := i, command := c, state := JobState.pending, attempts := 0,
          max_retries := input.max_retries.getD cfg.max_retries,
          created_at := now, updated_at := now,
          scheduled_at := input.scheduled_at,
          error_message := none, lock_id := none }
      (Except.ok job, create_job s job)
  | _, _ => (Except.error QErr.invalidInput, s)

/-- `JobManager.mark_completed`:
`update_job(id, {state: 'completed', error_message: None})`. -/
def mark_completed (s : Store) (job_id : String) (now : Nat) : Store :=
  update_job s job_id
    { state := some JobState.completed, error_message := some none } now

/-- `JobManager.mark_failed`: absent job is a no-op; otherwise bump `attempts`
and either move to the DLQ or reschedule with exponential backoff. -/
def mark_failed (cfg : QConfig) (s : Store) (job_id : String) (err : String)
    (now : Nat) : Store :=
  match get_job s job_id with
  | none => s
  | some job =>
    let attempts := job.attempts + 1
    if job.max_retries ≤ attempts then
      update_job s job_id
        { state := some JobState.dead, attempts := some attempts,
          error_message := some (some err), lock_id := some none } now
    else
      let delay := calculate_backoff_delay attempts cfg.backoff_base
      update_job s job_id
        { state := some JobState.pending, attempts := some attempts,
          error_message := some (some err),
          scheduled_at := some (some (now + delay)), lock_id := some none } now

/-- `JobManager.retry_from_dlq`: `NotFound` on absent job, `InvalidState`
unless `state == 'dead'`, else reset to a fresh `pending` record. -/
def retry_from_dlq (s : Store) (job_id : String) (now : Nat) :
    Except QErr Unit × Store :=
  match get_job s job_id with
  | none => (Except.error QErr.notFound, s)
  | some job =>
    if job.state = JobState.dead then
      (Except.ok (),
       update_job s job_id
         { state := some JobState.pending, attempts := some 0,
           error_message := some none, scheduled_at := some none,
           lock_id := some none } now)
    else (Except.error QErr.invalidState, s)

/-- One lifecycle operation applied to the store, at an arbitrary wall-clock
instant (failed operations leave the store unchanged and are included). -/
inductive Step (cfg : QConfig) : Store → Store → Prop where
  | enq (s : Store) (input : JobInput) (now : Nat) :
      Step cfg s (enqueue cfg s input now).2
  | claim (s : Store) (job_id lock_id : String) (now : Nat) :
      Step cfg s (acquire_job_lock s job_id lock_id now).2
  | complete (s : Store) (job_id : String) (now : Nat) :
      Step cfg s (mark_completed s job_id now)
  | fail (s : Store) (job_id err : String) (now : Nat) :
      Step cfg s (mark_failed cfg s job_id err now)
  | retry (s : Store) (job_id : String) (now : Nat) :
      Step cfg s (retry_from_dlq s job_id now).2
  | release (s : Store) (job_id lock_id : String) (now : Nat) :
      Step cfg s (release_job_lock s job_id lock_id now)

/-- Stores reachable from the empty table by lifecycle operations. -/
inductive Reachable (cfg : QConfig) : Store → Prop where
  | init : Reachable cfg []
  | step {s s' : Store} : Reachable cfg s → Step cfg s s' → Reachable cfg s'

/-! Concrete stores and jobs used to instantiate the theorems below. -/

/-- The default configuration (`max_retries = 3`, `backoff_base = 2`). -/
def cfg0 : QConfig := {}

/-- A well-formed enqueue request. -/
def inp1 : JobInput := { id := some "j1", command := some "cmd" }

/-- An enqueue request with `max_retries = 1`. -/
def inp6 : JobInput := { id := some "d", command := some "c", max_retries := some 1 }

/-- A fresh pending job as `enqueue` creates it. -/
def j1p : Job :=
  { id := "j1", command := "cmd", state := JobState.pending, attempts := 0,
    max_retries := 3, created_at := 0, updated_at := 0, scheduled_at := none,
    error_message := none, lock_id := none }

/-- A pending job whose `lock_id` column holds the empty string — present, not
`NULL`. -/
def emptyLockJob : Job :=
  { j1p with id := "x", lock_id := some "" }

/-- A processing job (for the `mark_completed` idempotence analysis). -/
def j4 : Job :=
  { j1p with id := "x", state := JobState.processing }

/-- A pending job named "m" with three retries left. -/
def jm : Job :=
  { j1p with id := "m", command := "c" }

/-- A job unrelated to the ids queried in the lock theorems. -/
def wJob10 : Job :=
  { j1p with id := "a", command := "c" }

/-- Store reached by enqueue, claim by worker "A", then `mark_completed` —
without a release in between. -/
def lockCexStore : Store :=
  mark_completed (acquire_job_lock (enqueue cfg0 [] inp1 0).2 "j1" "A" 1).2 "j1" 2

/-- The record `lockCexStore` holds: completed, yet still locked by "A". -/
def lockCexJob : Job :=
  { j1p with state := JobState.completed, updated_at := 2, lock_id := some "A" }

/-- Store reached by enqueue with `max_retries = 1` followed by two
`mark_failed` calls. -/
def deadCexStore : Store :=
  mark_failed cfg0 (mark_failed cfg0 (enqueue cfg0 [] inp6 0).2 "d" "e" 1) "d" "e" 2

/-- The record `deadCexStore` holds: dead with `attempts = 2 > max_retries = 1`. -/
def deadCexJob : Job :=
  { id := "d", command := "c", state := JobState.dead, attempts := 2,
    max_retries := 1, created_at := 0, updated_at := 2, scheduled_at := none,
    error_message := some "e", lock_id := none }

/-- Store reached by enqueue with `max_retries = 1` and one `mark_failed`. -/
def deadWitnessStore : Store :=
  mark_failed cfg0 (enqueue cfg0 [] inp6 0).2 "d" "e" 1

/-- The record `deadWitnessStore` holds. -/
def deadWitnessJob : Job :=
  { deadCexJob with attempts := 1, updated_at := 1 }

/-! Helper lemmas about the embedded operations. -/

theorem applyUpdates_preserves_id (u : JobUpdates) (j : Job) (now : Nat) :
    (applyUpdates u j now).id = j.id := rfl

theorem get_job_map (f : Job → Job) (hf : ∀ r, (f r).id = r.id) (s : Store)
    (q : String) : get_job (s.map f) q = (get_job s q).map f := by
  induction s with
  | nil => rfl
  | cons a l ih =>
    simp only [get_job, List.map_cons, List.find?]
    rw [hf a]
    cases h : (a.id == q) with
    | true => rfl
    | false => simpa [get_job] using ih

theorem get_job_update_job (s : Store) (i : String) (u : JobUpdates) (now : Nat)
    (q : String) :
    get_job (update_job s i u now) q =
      (get_job s q).map fun r => if r.id == i then applyUpdates u r now else r := by
  apply get_job_map
  intro r
  by_cases h : (r.id == i) = true
  · simp [h, applyUpdates_preserves_id]
  · simp [h]

theorem id_eq_of_get_job {s : Store} {q : String} {j : Job}
    (h : get_job s q = some j) : j.id = q := by
  have := List.find?_some h
  simpa using this

theorem mem_of_get_job {s : Store} {q : String} {j : Job}
    (h : get_job s q = some j) : j ∈ s :=
  List.mem_of_find?_eq_some h

theorem get_job_update_job_other (s : Store) (i : String) (u : JobUpdates)
    (now : Nat) (q : String) (hq : q ≠ i) :
    get_job (update_job s i u now) q = get_job s q := by
  rw [get_job_update_job]
  cases h : get_job s q with
  | none => rfl
  | some r =>
    have hr : r.id = q := id_eq_of_get_job h
    simp [hr, hq]

/-! Claim theorems. -/

/-- Claim C9: for every id not present in the store and every error message,
`mark_failed(id, err)` returns successfully without raising and leaves the
store unchanged. -/
theorem mark_failed_absent (cfg : QConfig) (s : Store) (i err : String)
    (now : Nat) (h : get_job s i = none) : mark_failed cfg s i err now = s := by
  simp [mark_failed, h]

/-- Witness: `mark_failed` on the empty store is a no-op. -/
theorem mark_failed_absent_witness :
    mark_failed cfg0 [] "missing" "boom" 0 = [] :=
  mark_failed_absent cfg0 [] "missing" "boom" 0 rfl

/-- Claim C10: for every claimant and every id with no job record in the
store, `try_claim(id, claimant)` returns false without raising and leaves the
store unchanged. -/
theorem acquire_job_lock_absent (s : Store) (i w : String) (now : Nat)
    (h : get_job s i = none) : acquire_job_lock s i w now = (false, s) := by
  have hall : ∀ r ∈ s, claimable r i = false := by
    intro r hr
    have hfind := List.find?_eq_none.mp h r hr
    simp only [Bool.not_eq_true] at hfind
    simp [claimable, hfind]
  have h1 : (acquire_job_lock s i w now).1 = false := by
    simp only [acquire_job_lock]
    rw [List.any_eq_false]
    intro r hr
    simp [hall r hr]
  have h2 : (acquire_job_lock s i w now).2 = s := by
    simp only [acquire_job_lock]
    have hpt : ∀ r ∈ s,
        (if claimable r i then
          { r with lock_id := some w, state := JobState.processing,
                   updated_at := now }
        else r) = id r := by
      intro r hr
      simp [hall r hr]
    exact (List.map_congr_left hpt).trans (List.map_id s)
  calc acquire_job_lock s i w now
      = ((acquire_job_lock s i w now).1, (acquire_job_lock s i w now).2) := rfl
    _ = (false, s) := by rw [h1, h2]

/-- Witness: claiming an id that is not in the table fails and changes
nothing. -/
theorem acquire_job_lock_absent_witness :
    acquire_job_lock [wJob10] "b" "W" 3 = (false, [wJob10]) :=
  acquire_job_lock_absent [wJob10] "b" "W" 3 (by decide)

/-- Claim C4 (amended): a second `mark_completed` coincides with a single
`mark_completed` at the later timestamp, so every field except `updated_at`
is left as the first call wrote it; when the wall clock has not advanced the
record is exactly identical. -/
theorem mark_completed_twice (s : Store) (i : String) (n1 n2 : Nat) :
    mark_completed (mark_completed s i n1) i n2 = mark_completed s i n2 ∧
    mark_completed (mark_completed s i n1) i n1 = mark_completed s i n1 := by
  have key : ∀ m : Nat,
      mark_completed (mark_completed s i n1) i m = mark_completed s i m := by
    intro m
    simp only [mark_completed, update_job, List.map_map]
    apply List.map_congr_left
    intro r _
    by_cases h : r.id = i
    · simp [Function.comp_def, applyUpdates, h]
    · simp [Function.comp_def, applyUpdates, h]
  exact ⟨key n2, key n1⟩

/-- Claim C4 counterexample: `update_job` always advances `updated_at`, so a
second `mark_completed` at a later instant does change the record. -/
theorem mark_completed_twice_cex :
    get_job (mark_completed (mark_completed [j4] "x" 0) "x" 1) "x" ≠
      get_job (mark_completed [j4] "x" 0) "x" := by decide

/-- Claim C2: `mark_failed(id, err)` with `n = attempts + 1` writes
`{state: dead, attempts: n, error_message: err, lock_id: absent}` when
`n ≥ max_retries`, and otherwise reschedules the job as pending at
`now + backoff_base ^ n`; at `n = max_retries` the job goes dead. -/
theorem mark_failed_spec (cfg : QConfig) (s : Store) (i err : String)
    (now : Nat) (j : Job) (hj : get_job s i = some j) :
    (j.max_retries ≤ j.attempts + 1 →
      get_job (mark_failed cfg s i err now) i =
        some { j with state := JobState.dead,
                      attempts := j.attempts + 1,
                      error_message := some err,
                      lock_id := none,
                      updated_at := now }) ∧
    (j.attempts + 1 < j.max_retries →
      get_job (mark_failed cfg s i err now) i =
        some { j with state := JobState.pending,
                      attempts := j.attempts + 1,
                      error_message := some err,
                      scheduled_at :=
                        some (now + cfg.backoff_base ^ (j.attempts + 1)),
                      lock_id := none,
                      updated_at := now }) ∧
    (j.attempts + 1 = j.max_retries →
      (get_job (mark_failed cfg s i err now) i).map Job.state =
        some JobState.dead) := by
  have hid : (j.id == i) = true := by simp [id_eq_of_get_job hj]
  have hdead : j.max_retries ≤ j.attempts + 1 →
      get_job (mark_failed cfg s i err now) i =
        some { j with state := JobState.dead,
                      attempts := j.attempts + 1,
                      error_message := some err,
                      lock_id := none,
                      updated_at := now } := by
    intro hge
    have hunf : mark_failed cfg s i err now = update_job s i
        { state := some JobState.dead, attempts := some (j.attempts + 1),
          error_message := some (some err), lock_id := some none } now := by
      unfold mark_failed
      rw [hj]
      simp [hge]
    rw [hunf, get_job_update_job, hj]
    simp [id_eq_of_get_job hj, applyUpdates]
  refine ⟨hdead, ?_, ?_⟩
  · intro hlt
    have hneg : ¬ j.max_retries ≤ j.attempts + 1 := by omega
    have hunf : mark_failed cfg s i err now = update_job s i
        { state := some JobState.pending, attempts := some (j.attempts + 1),
          error_message := some (some err),
          scheduled_at :=
            some (some (now + calculate_backoff_delay (j.attempts + 1)
              cfg.backoff_base)),
          lock_id := some none } now := by
      unfold mark_failed
      rw [hj]
      simp [hneg]
    rw [hunf, get_job_update_job, hj]
    simp [id_eq_of_get_job hj, applyUpdates, calculate_backoff_delay]
  · intro heq
    rw [hdead (le_of_eq heq.symm)]
    rfl

/-- Witness: failing a fresh job with `max_retries = 3` reschedules it as
pending with backoff `2 ^ 1`. -/
theorem mark_failed_spec_witness :
    get_job (mark_failed cfg0 [jm] "m" "err" 10) "m" =
      some { jm with state := JobState.pending,
                     attempts := 1,
                     error_message := some "err",
                     scheduled_at := some 12,
                     updated_at := 10 } :=
  (mark_failed_spec cfg0 [jm] "m" "err" 10 jm (by decide)).2.1 (by decide)

/-- Claim C7: `retry_from_dlq(id)` fails with NotFound on an absent job and
with InvalidState on a non-dead job, leaving the store unchanged; on a dead
job it resets the record to a fresh pending one, touching no other record. -/
theorem retry_from_dlq_spec (s : Store) (i : String) (now : Nat) :
    (get_job s i = none →
      retry_from_dlq s i now = (Except.error QErr.notFound, s)) ∧
    (∀ j, get_job s i = some j → j.state ≠ JobState.dead →
      retry_from_dlq s i now = (Except.error QErr.invalidState, s)) ∧
    (∀ j, get_job s i = some j → j.state = JobState.dead →
      (retry_from_dlq s i now).1 = Except.ok () ∧
      get_job (retry_from_dlq s i now).2 i =
        some { j with state := JobState.pending,
                      attempts := 0,
                      error_message := none,
                      scheduled_at := none,
                      lock_id := none,
                      updated_at := now } ∧
      ∀ q, q ≠ i → get_job (retry_from_dlq s i now).2 q = get_job s q) := by
  refine ⟨?_, ?_, ?_⟩
  · intro h
    simp [retry_from_dlq, h]
  · intro j hj hnd
    simp [retry_from_dlq, hj, hnd]
  · intro j hj hd
    have hid : (j.id == i) = true := by simp [id_eq_of_get_job hj]
    have hunf : (retry_from_dlq s i now).2 = update_job s i
        { state := some JobState.pending, attempts := some 0,
          error_message := some none, scheduled_at := some none,
          lock_id := some none } now := by
      simp [retry_from_dlq, hj, hd]
    refine ⟨by simp [retry_from_dlq, hj, hd], ?_, ?_⟩
    · rw [hunf, get_job_update_job, hj]
      simp [id_eq_of_get_job hj, applyUpdates]
    · intro q hq
      rw [hunf, get_job_update_job_other _ _ _ _ _ hq]

/-- Claim C8: `enqueue` fails with InvalidInput when the input lacks `id` or
`command`, and with Duplicate when a job with the same id exists; in both
cases the store is returned unchanged. -/
theorem enqueue_spec (cfg : QConfig) (s : Store) (input : JobInput)
    (now : Nat) :
    (input.id = none ∨ input.command = none →
      enqueue cfg s input now = (Except.error QErr.invalidInput, s)) ∧
    (∀ i, input.id = some i → input.command ≠ none → get_job s i ≠ none →
      enqueue cfg s input now = (Except.error QErr.duplicate, s)) := by
  constructor
  · intro h
    cases hi : input.id with
    | none => simp [enqueue, hi]
    | some i =>
      cases hc : input.command with
      | none => simp [enqueue, hi, hc]
      | some c =>
        rcases h with h | h
        · rw [hi] at h
          exact absurd h (by simp)
        · rw [hc] at h
          exact absurd h (by simp)
  · intro i hi hc hdup
    cases hcm : input.command with
    | none => exact absurd hcm hc
    | some c =>
      cases hget : get_job s i with
      | none => exact absurd hget hdup
      | some j0 => simp [enqueue, hi, hcm, hget]

/-! Lemmas about `acquire_job_lock`. -/

theorem acquire_job_lock_fst (s : Store) (i w : String) (now : Nat) :
    (acquire_job_lock s i w now).1 = s.any fun r => claimable r i := rfl

theorem acquire_job_lock_snd (s : Store) (i w : String) (now : Nat) :
    (acquire_job_lock s i w now).2 = s.map (claimTransform i w now) := rfl

theorem claimTransform_preserves_id (i w : String) (now : Nat) (r : Job) :
    (claimTransform i w now r).id = r.id := by
  unfold claimTransform
  by_cases h : claimable r i = true
  · rw [if_pos h]
  · rw [if_neg h]

theorem claimable_iff (r : Job) (i : String) :
    claimable r i = true ↔
      r.id = i ∧ (r.lock_id = none ∨ r.lock_id = some "") ∧
        r.state = JobState.pending := by
  simp [claimable, and_assoc]

theorem id_eq_of_claimable {r : Job} {i : String} (h : claimable r i = true) :
    r.id = i :=
  ((claimable_iff r i).mp h).1

/-- Claim C1 (amended): for a store with unique ids (the table's primary key)
and a job present under `id`, `try_claim(id, claimant)` succeeds exactly when
the record has `state == pending` and `lock_id` absent *or equal to the empty
string*; on success it sets `state := processing`, `lock_id := claimant` and
`updated_at := now`, on failure it leaves the table untouched, it never
touches a record with a different id, and after a successful claim any second
`try_claim` on the same id fails. -/
theorem acquire_job_lock_spec (s : Store) (i w : String) (now : Nat) (j : Job)
    (hnd : (s.map Job.id).Nodup) (hj : get_job s i = some j) :
    ((acquire_job_lock s i w now).1 = true ↔
      j.state = JobState.pending ∧
        (j.lock_id = none ∨ j.lock_id = some "")) ∧
    ((acquire_job_lock s i w now).1 = true →
      get_job (acquire_job_lock s i w now).2 i =
        some { j with state := JobState.processing,
                      lock_id := some w,
                      updated_at := now }) ∧
    ((acquire_job_lock s i w now).1 = false →
      (acquire_job_lock s i w now).2 = s) ∧
    (∀ q, q ≠ i →
      get_job (acquire_job_lock s i w now).2 q = get_job s q) ∧
    ((acquire_job_lock s i w now).1 = true →
      ∀ w2 now2,
        (acquire_job_lock (acquire_job_lock s i w now).2 i w2 now2).1 =
          false) := by
  have hidj : j.id = i := id_eq_of_get_job hj
  have hmem : j ∈ s := mem_of_get_job hj
  have huniq : ∀ r ∈ s, r.id = i → r = j := by
    intro r hr hri
    exact List.inj_on_of_nodup_map hnd hr hmem (by rw [hri, hidj])
  have hiff1 : (acquire_job_lock s i w now).1 = true ↔ claimable j i = true := by
    rw [acquire_job_lock_fst, List.any_eq_true]
    constructor
    · rintro ⟨r, hr, hcr⟩
      rwa [huniq r hr (id_eq_of_claimable hcr)] at hcr
    · intro hc
      exact ⟨j, hmem, hc⟩
  have hget : ∀ q, get_job (acquire_job_lock s i w now).2 q =
      (get_job s q).map (claimTransform i w now) := by
    intro q
    rw [acquire_job_lock_snd]
    exact get_job_map _ (claimTransform_preserves_id i w now) s q
  refine ⟨?_, ?_, ?_, ?_, ?_⟩
  · rw [hiff1, claimable_iff]
    constructor
    · rintro ⟨_, h2, h3⟩
      exact ⟨h3, h2⟩
    · rintro ⟨h3, h2⟩
      exact ⟨hidj, h2, h3⟩
  · intro htrue
    have hc : claimable j i = true := hiff1.mp htrue
    rw [hget, hj]
    show some (claimTransform i w now j) = _
    rw [claimTransform, if_pos hc]
  · intro hfalse
    rw [acquire_job_lock_fst] at hfalse
    rw [acquire_job_lock_snd]
    have hall : ∀ r ∈ s, claimable r i = false :=
      fun r hr => by simpa using List.any_eq_false.mp hfalse r hr
    have hpt : ∀ r ∈ s, claimTransform i w now r = id r := by
      intro r hr
      rw [claimTransform, if_neg (by simp [hall r hr]), id_eq]
    exact (List.map_congr_left hpt).trans (List.map_id s)
  · intro q hq
    rw [hget]
    cases hg : get_job s q with
    | none => rfl
    | some r =>
      have hr : r.id = q := id_eq_of_get_job hg
      have : claimable r i = false := by
        rcases hcl : claimable r i with _ | _
        · rfl
        · exact absurd (id_eq_of_claimable hcl) (by rw [hr]; exact hq)
      show some (claimTransform i w now r) = some r
      rw [claimTransform, if_neg (by simp [this])]
  · intro _ w2 now2
    rw [acquire_job_lock_fst, List.any_eq_false]
    intro r' hr'
    rw [acquire_job_lock_snd] at hr'
    rcases List.mem_map.1 hr' with ⟨r, hr, rfl⟩
    rcases hcl : claimable r i with _ | _
    · rw [claimTransform, if_neg (by simp [hcl])]
      simp [hcl]
    · rw [claimTransform, if_pos hcl]
      simp [claimable]

/-- Claim C1 counterexample: a pending job whose `lock_id` column holds the
empty string (present, not absent) is still claimed successfully — the SQL
guard accepts `lock_id = ''` alongside `lock_id IS NULL`. -/
theorem acquire_job_lock_empty_lock_cex :
    ¬ ((acquire_job_lock [emptyLockJob] "x" "W" 1).1 = true ↔
        emptyLockJob.state = JobState.pending ∧
          emptyLockJob.lock_id = none) := by
  decide

/-- Witness: a pending unlocked job is claimed successfully. -/
theorem acquire_job_lock_spec_witness :
    (acquire_job_lock [j1p] "j1" "A" 5).1 = true :=
  ((acquire_job_lock_spec [j1p] "j1" "A" 5 j1p (by decide) (by decide)).1).mpr
    (by decide)

/-! Lemmas about `get_ready_jobs`. -/

theorem isReady_iff (j : Job) (now : Nat) :
    isReady j now = true ↔
      j.state = JobState.pending ∧
        (j.scheduled_at = none ∨ ∃ t, j.scheduled_at = some t ∧ t ≤ now) := by
  cases h : j.scheduled_at with
  | none => simp [isReady, h]
  | some t => simp [isReady, h]

theorem byCreated_trans : ∀ a b c : Job, byCreated a b = true →
    byCreated b c = true → byCreated a c = true := by
  intro a b c hab hbc
  simp only [byCreated, decide_eq_true_eq] at *
  omega

theorem byCreated_total : ∀ a b : Job, (byCreated a b || byCreated b a) = true := by
  intro a b
  simp only [byCreated, Bool.or_eq_true, decide_eq_true_eq]
  omega

/-- Claim C5: `ready(limit)` returns exactly the pending jobs whose
`scheduled_at` is absent or `≤ now` (jobs scheduled strictly in the future
are excluded), sorted by `created_at` ascending and truncated to the first
`limit` of them: at most `limit` are returned, every qualifying job is
returned whenever at most `limit` jobs qualify, and any omitted qualifying
job is created no earlier than every returned one. -/
theorem get_ready_jobs_spec (s : Store) (now limit : Nat) :
    (∀ j ∈ get_ready_jobs s now limit,
      j ∈ s ∧ j.state = JobState.pending ∧
        (j.scheduled_at = none ∨ ∃ t, j.scheduled_at = some t ∧ t ≤ now)) ∧
    (∀ j ∈ get_ready_jobs s now limit,
      ∀ t, j.scheduled_at = some t → ¬ now < t) ∧
    List.Sorted (fun a b : Job => a.created_at ≤ b.created_at)
      (get_ready_jobs s now limit) ∧
    (get_ready_jobs s now limit).length ≤ limit ∧
    ((s.filter fun r => isReady r now).length ≤ limit →
      ∀ j ∈ s, isReady j now = true → j ∈ get_ready_jobs s now limit) ∧
    (∀ j ∈ s, isReady j now = true → j ∉ get_ready_jobs s now limit →
      ∀ j2 ∈ get_ready_jobs s now limit, j2.created_at ≤ j.created_at) := by
  have hmem : ∀ j ∈ get_ready_jobs s now limit,
      j ∈ s.filter fun r => isReady r now := by
    intro j hj
    have h1 : j ∈ (s.filter fun r => isReady r now).mergeSort byCreated :=
      (List.take_sublist _ _).subset hj
    exact (List.mergeSort_perm _ byCreated).mem_iff.mp h1
  refine ⟨?_, ?_, ?_, ?_, ?_, ?_⟩
  · intro j hj
    have h2 := List.mem_filter.mp (hmem j hj)
    exact ⟨h2.1, (isReady_iff j now).mp h2.2⟩
  · intro j hj t ht
    rcases ((isReady_iff j now).mp (List.mem_filter.mp (hmem j hj)).2).2 with
      h2 | ⟨u, hu, hle⟩
    · rw [h2] at ht
      cases ht
    · have : u = t := by
        rw [hu] at ht
        exact Option.some.inj ht
      omega
  · have hp := List.sorted_mergeSort byCreated_trans byCreated_total
      (s.filter fun r => isReady r now)
    have hp2 : List.Pairwise (fun a b : Job => a.created_at ≤ b.created_at)
        ((s.filter fun r => isReady r now).mergeSort byCreated) := by
      refine hp.imp ?_
      intro a b hab
      simpa [byCreated] using hab
    exact List.Pairwise.sublist (List.take_sublist _ _) hp2
  · simp only [get_ready_jobs, List.length_take]
    exact min_le_left _ _
  · intro hlen j hj hready
    have hL : j ∈ s.filter fun r => isReady r now :=
      List.mem_filter.mpr ⟨hj, hready⟩
    have hperm := List.mergeSort_perm (s.filter fun r => isReady r now) byCreated
    have hMlen :
        ((s.filter fun r => isReady r now).mergeSort byCreated).length ≤
          limit := by
      rw [hperm.length_eq]
      exact hlen
    rw [get_ready_jobs, List.take_of_length_le hMlen]
    exact hperm.mem_iff.mpr hL
  · intro j hj hready hnot j2 hj2
    have hL : j ∈ s.filter fun r => isReady r now :=
      List.mem_filter.mpr ⟨hj, hready⟩
    have hM : j ∈ (s.filter fun r => isReady r now).mergeSort byCreated :=
      (List.mergeSort_perm _ byCreated).mem_iff.mpr hL
    have hsplit := List.take_append_drop limit
      ((s.filter fun r => isReady r now).mergeSort byCreated)
    have hIn : j ∈
        ((s.filter fun r => isReady r now).mergeSort byCreated).take limit ++
          ((s.filter fun r => isReady r now).mergeSort byCreated).drop
            limit := by
      rw [hsplit]
      exact hM
    have hdrop : j ∈
        ((s.filter fun r => isReady r now).mergeSort byCreated).drop limit := by
      rcases List.mem_append.1 hIn with h | h
      · exact absurd h hnot
      · exact h
    have hpw2 : List.Pairwise (fun a b => byCreated a b = true)
        (((s.filter fun r => isReady r now).mergeSort byCreated).take limit ++
          ((s.filter fun r => isReady r now).mergeSort byCreated).drop
            limit) := by
      rw [hsplit]
      exact List.sorted_mergeSort byCreated_trans byCreated_total _
    have hres := (List.pairwise_append.1 hpw2).2.2 j2 hj2 j hdrop
    simpa [byCreated] using hres

/-! Case-analysis lemmas for the lifecycle operations. -/

theorem mem_update_job_cases {s : Store} {i : String} {u : JobUpdates}
    {now : Nat} {j : Job} (h : j ∈ update_job s i u now) :
    ∃ r ∈ s, (r.id = i ∧ j = applyUpdates u r now) ∨ (r.id ≠ i ∧ j = r) := by
  rcases List.mem_map.1 h with ⟨r, hr, rfl⟩
  refine ⟨r, hr, ?_⟩
  by_cases hri : r.id = i
  · exact Or.inl ⟨hri, by rw [if_pos (by simp [hri])]⟩
  · exact Or.inr ⟨hri, by rw [if_neg (by simp [hri])]⟩

theorem enqueue_snd_cases (cfg : QConfig) (s : Store) (input : JobInput)
    (now : Nat) :
    (enqueue cfg s input now).2 = s ∨
    ∃ i c, input.id = some i ∧ input.command = some c ∧ get_job s i = none ∧
      (enqueue cfg s input now).2 = s ++
        [{ id := i, command := c, state := JobState.pending, attempts := 0,
           max_retries := input.max_retries.getD cfg.max_retries,
           created_at := now, updated_at := now,
           scheduled_at := input.scheduled_at,
           error_message := none, lock_id := none }] := by
  cases hi : input.id with
  | none => exact Or.inl (by simp [enqueue, hi])
  | some i =>
    cases hc : input.command with
    | none => exact Or.inl (by simp [enqueue, hi, hc])
    | some c =>
      cases hg : get_job s i with
      | some j0 => exact Or.inl (by simp [enqueue, hi, hc, hg])
      | none =>
        exact Or.inr ⟨i, c, rfl, rfl, hg, by simp [enqueue, hi, hc, hg, create_job]⟩

theorem mark_failed_cases (cfg : QConfig) (s : Store) (i err : String)
    (now : Nat) :
    mark_failed cfg s i err now = s ∨
    ∃ job, get_job s i = some job ∧
      ((job.max_retries ≤ job.attempts + 1 ∧
        mark_failed cfg s i err now = update_job s i
          { state := some JobState.dead, attempts := some (job.attempts + 1),
            error_message := some (some err), lock_id := some none } now) ∨
       (¬ job.max_retries ≤ job.attempts + 1 ∧
        mark_failed cfg s i err now = update_job s i
          { state := some JobState.pending,
            attempts := some (job.attempts + 1),
            error_message := some (some err),
            scheduled_at := some (some (now +
              calculate_backoff_delay (job.attempts + 1) cfg.backoff_base)),
            lock_id := some none } now)) := by
  cases hg : get_job s i with
  | none => exact Or.inl (by simp [mark_failed, hg])
  | some job =>
    refine Or.inr ⟨job, rfl, ?_⟩
    by_cases hle : job.max_retries ≤ job.attempts + 1
    · exact Or.inl ⟨hle, by unfold mark_failed; rw [hg]; simp [hle]⟩
    · exact Or.inr ⟨hle, by unfold mark_failed; rw [hg]; simp [hle]⟩

theorem retry_snd_cases (s : Store) (i : String) (now : Nat) :
    (retry_from_dlq s i now).2 = s ∨
    (retry_from_dlq s i now).2 = update_job s i
      { state := some JobState.pending, attempts := some 0,
        error_message := some none, scheduled_at := some none,
        lock_id := some none } now := by
  cases hg : get_job s i with
  | none => exact Or.inl (by simp [retry_from_dlq, hg])
  | some job =>
    by_cases hd : job.state = JobState.dead
    · exact Or.inr (by simp [retry_from_dlq, hg, hd])
    · exact Or.inl (by simp [retry_from_dlq, hg, hd])

theorem mem_release_cases {s : Store} {i w : String} {now : Nat} {j : Job}
    (h : j ∈ release_job_lock s i w now) :
    ∃ r ∈ s, j = { r with lock_id := none, updated_at := now } ∨ j = r := by
  rcases List.mem_map.1 h with ⟨r, hr, rfl⟩
  refine ⟨r, hr, ?_⟩
  by_cases hc : (r.id == i && r.lock_id == some w) = true
  · exact Or.inl (by rw [if_pos hc])
  · exact Or.inr (by rw [if_neg hc])

theorem mem_acquire_cases {s : Store} {i w : String} {now : Nat} {j : Job}
    (h : j ∈ (acquire_job_lock s i w now).2) :
    ∃ r ∈ s, (claimable r i = true ∧
        j = { r with lock_id := some w, state := JobState.processing,
                     updated_at := now }) ∨
      (claimable r i = false ∧ j = r) := by
  rw [acquire_job_lock_snd] at h
  rcases List.mem_map.1 h with ⟨r, hr, rfl⟩
  refine ⟨r, hr, ?_⟩
  rcases hc : claimable r i with _ | _
  · exact Or.inr ⟨rfl, by rw [claimTransform, if_neg (by simp [hc])]⟩
  · exact Or.inl ⟨rfl, by rw [claimTransform, if_pos hc]⟩

/-! Unique ids is an invariant of every reachable store. -/

theorem map_ids_of_preserving (f : Job → Job) (hf : ∀ r, (f r).id = r.id)
    (s : Store) : (s.map f).map Job.id = s.map Job.id := by
  rw [List.map_map]
  exact List.map_congr_left fun r _ => hf r

theorem update_job_ids (s : Store) (i : String) (u : JobUpdates) (now : Nat) :
    (update_job s i u now).map Job.id = s.map Job.id := by
  rw [update_job]
  apply map_ids_of_preserving
  intro r
  by_cases h : r.id = i
  · rw [if_pos (by simp [h])]
    rfl
  · rw [if_neg (by simp [h])]

theorem acquire_ids (s : Store) (i w : String) (now : Nat) :
    ((acquire_job_lock s i w now).2).map Job.id = s.map Job.id := by
  rw [acquire_job_lock_snd]
  exact map_ids_of_preserving _ (claimTransform_preserves_id i w now) s

theorem release_ids (s : Store) (i w : String) (now : Nat) :
    (release_job_lock s i w now).map Job.id = s.map Job.id := by
  rw [release_job_lock]
  apply map_ids_of_preserving
  intro r
  by_cases h : (r.id == i && r.lock_id == some w) = true
  · rw [if_pos h]
  · rw [if_neg h]

theorem reachable_ids_nodup {cfg : QConfig} {s : Store} (h : Reachable cfg s) :
    (s.map Job.id).Nodup := by
  induction h with
  | init => simp
  | step hr hstep ih =>
    cases hstep with
    | enq input now =>
      rcases enqueue_snd_cases cfg _ input now with he | ⟨i, c, _, _, hg, he⟩
      · rw [he]
        exact ih
      · rw [he, List.map_append, List.nodup_append]
        refine ⟨ih, by simp, ?_⟩
        intro a ha hb
        simp only [List.map_cons, List.map_nil, List.mem_singleton] at hb
        rcases List.mem_map.1 ha with ⟨r, hr, rfl⟩
        have hno := List.find?_eq_none.mp hg r hr
        simp only [Bool.not_eq_true, beq_eq_false_iff_ne, ne_eq] at hno
        exact hno (by rw [hb])
    | claim job_id lock_id now =>
      rw [acquire_ids]
      exact ih
    | complete job_id now =>
      rw [mark_completed, update_job_ids]
      exact ih
    | fail job_id err now =>
      rcases mark_failed_cases cfg _ job_id err now with he | ⟨job, _, hbr⟩
      · rw [he]
        exact ih
      · rcases hbr with ⟨_, he⟩ | ⟨_, he⟩ <;> (rw [he, update_job_ids]; exact ih)
    | retry job_id now =>
      rcases retry_snd_cases _ job_id now with he | he
      · rw [he]
        exact ih
      · rw [he, update_job_ids]
        exact ih
    | release job_id lock_id now =>
      rw [release_ids]
      exact ih

/-- Claim C3 (amended): in every store reachable by any sequence of the
lifecycle operations, every job in state `pending` has `lock_id` absent.  The
claimed biconditional fails: `mark_completed` does not clear the lock
(counterexample below). -/
theorem reachable_pending_unlocked {cfg : QConfig} {s : Store}
    (h : Reachable cfg s) :
    ∀ j ∈ s, j.state = JobState.pending → j.lock_id = none := by
  induction h with
  | init =>
    intro j hj
    cases hj
  | step hr hstep ih =>
    cases hstep with
    | enq input now =>
      rcases enqueue_snd_cases cfg _ input now with he | ⟨i, c, _, _, _, he⟩
      · rw [he]
        exact ih
      · rw [he]
        intro j hj hp
        rcases List.mem_append.1 hj with hj | hj
        · exact ih j hj hp
        · rw [List.mem_singleton] at hj
          rw [hj]
    | claim job_id lock_id now =>
      intro j hj hp
      rcases mem_acquire_cases hj with ⟨r, hr2, ⟨hc, rfl⟩ | ⟨hc, rfl⟩⟩
      · simp at hp
      · exact ih _ hr2 hp
    | complete job_id now =>
      intro j hj hp
      rw [mark_completed] at hj
      rcases mem_update_job_cases hj with ⟨r, hr2, ⟨hri, rfl⟩ | ⟨hri, rfl⟩⟩
      · simp [applyUpdates] at hp
      · exact ih _ hr2 hp
    | fail job_id err now =>
      rcases mark_failed_cases cfg _ job_id err now with he | ⟨job, hg, hbr⟩
      · rw [he]
        exact ih
      · rcases hbr with ⟨hle, he⟩ | ⟨hle, he⟩ <;> rw [he] <;> intro j hj hp <;>
          rcases mem_update_job_cases hj with ⟨r, hr2, ⟨hri, rfl⟩ | ⟨hri, rfl⟩⟩
        · simp [applyUpdates] at hp
        · exact ih _ hr2 hp
        · simp [applyUpdates]
        · exact ih _ hr2 hp
    | retry job_id now =>
      rcases retry_snd_cases _ job_id now with he | he
      · rw [he]
        exact ih
      · rw [he]
        intro j hj hp
        rcases mem_update_job_cases hj with ⟨r, hr2, ⟨hri, rfl⟩ | ⟨hri, rfl⟩⟩
        · simp [applyUpdates]
        · exact ih _ hr2 hp
    | release job_id lock_id now =>
      intro j hj hp
      rcases mem_release_cases hj with ⟨r, hr2, rfl | rfl⟩
      · rfl
      · exact ih _ hr2 hp

/-- Claim C3 counterexample: `mark_completed` does not clear `lock_id`, so
the store reached by enqueue, successful claim, `mark_completed` (no release)
holds a completed job whose `lock_id` is still present. -/
theorem lock_invariant_cex :
    Reachable cfg0 lockCexStore ∧ lockCexJob ∈ lockCexStore ∧
    lockCexJob.lock_id = some "A" ∧
    lockCexJob.state ≠ JobState.processing := by
  refine ⟨?_, by decide, by decide, by decide⟩
  exact Reachable.step
    (Reachable.step (Reachable.step Reachable.init (Step.enq [] inp1 0))
      (Step.claim _ "j1" "A" 1))
    (Step.complete _ "j1" 2)

/-- Witness: in the store reached by a single enqueue, the pending job is
unlocked. -/
theorem reachable_pending_unlocked_witness : j1p.lock_id = none :=
  reachable_pending_unlocked
    (Reachable.step Reachable.init (@Step.enq cfg0 [] inp1 0))
    j1p (by decide) (by decide)

/-- Claim C6 (amended): in every reachable store, every job observed in state
`dead` has `attempts ≥ max_retries` (and `attempts ≥ 0` holds trivially,
attempts being a count).  Equality — and with it the bound
`attempts ≤ max_retries` — fails, because `mark_failed` is not guarded
against already-dead jobs (counterexample below). -/
theorem reachable_dead_exhausted {cfg : QConfig} {s : Store}
    (h : Reachable cfg s) :
    ∀ j ∈ s, j.state = JobState.dead → j.max_retries ≤ j.attempts := by
  induction h with
  | init =>
    intro j hj
    cases hj
  | step hr hstep ih =>
    cases hstep with
    | enq input now =>
      rcases enqueue_snd_cases cfg _ input now with he | ⟨i, c, _, _, _, he⟩
      · rw [he]
        exact ih
      · rw [he]
        intro j hj hd
        rcases List.mem_append.1 hj with hj | hj
        · exact ih j hj hd
        · rw [List.mem_singleton] at hj
          rw [hj] at hd
          simp at hd
    | claim job_id lock_id now =>
      intro j hj hd
      rcases mem_acquire_cases hj with ⟨r, hr2, ⟨hc, rfl⟩ | ⟨hc, rfl⟩⟩
      · simp at hd
      · exact ih _ hr2 hd
    | complete job_id now =>
      intro j hj hd
      rw [mark_completed] at hj
      rcases mem_update_job_cases hj with ⟨r, hr2, ⟨hri, rfl⟩ | ⟨hri, rfl⟩⟩
      · simp [applyUpdates] at hd
      · exact ih _ hr2 hd
    | fail job_id err now =>
      rcases mark_failed_cases cfg _ job_id err now with he | ⟨job, hg, hbr⟩
      · rw [he]
        exact ih
      · have hnd := reachable_ids_nodup hr
        have hjmem := mem_of_get_job hg
        have hjid := id_eq_of_get_job hg
        rcases hbr with ⟨hle, he⟩ | ⟨hle, he⟩
        · rw [he]
          intro j hj hd
          rcases mem_update_job_cases hj with ⟨r, hr2, ⟨hri, rfl⟩ | ⟨hri, rfl⟩⟩
          · have hrj : r = job :=
              List.inj_on_of_nodup_map hnd hr2 hjmem (by rw [hri, hjid])
            subst hrj
            simpa [applyUpdates] using hle
          · exact ih _ hr2 hd
        · rw [he]
          intro j hj hd
          rcases mem_update_job_cases hj with ⟨r, hr2, ⟨hri, rfl⟩ | ⟨hri, rfl⟩⟩
          · simp [applyUpdates] at hd
          · exact ih _ hr2 hd
    | retry job_id now =>
      rcases retry_snd_cases _ job_id now with he | he
      · rw [he]
        exact ih
      · rw [he]
        intro j hj hd
        rcases mem_update_job_cases hj with ⟨r, hr2, ⟨hri, rfl⟩ | ⟨hri, rfl⟩⟩
        · simp [applyUpdates] at hd
        · exact ih _ hr2 hd
    | release job_id lock_id now =>
      intro j hj hd
      rcases mem_release_cases hj with ⟨r, hr2, rfl | rfl⟩
      · exact ih r hr2 hd
      · exact ih _ hr2 hd

/-- Claim C6 counterexample: with `max_retries = 1`, two `mark_failed` calls
reach a store whose dead job has `attempts = 2 > max_retries = 1`. -/
theorem dead_attempts_cex :
    Reachable cfg0 deadCexStore ∧ deadCexJob ∈ deadCexStore ∧
    deadCexJob.state = JobState.dead ∧
    deadCexJob.attempts ≠ deadCexJob.max_retries ∧
    deadCexJob.max_retries < deadCexJob.attempts := by
  refine ⟨?_, by decide, by decide, by decide, by decide⟩
  exact Reachable.step
    (Reachable.step (Reachable.step Reachable.init (Step.enq [] inp6 0))
      (Step.fail _ "d" "e" 1))
    (Step.fail _ "d" "e" 2)

/-- Witness: the dead job reached by exhausting a single allowed attempt
satisfies `max_retries ≤ attempts`. -/
theorem reachable_dead_exhausted_witness :
    deadWitnessJob.max_retries ≤ deadWitnessJob.attempts :=
  reachable_dead_exhausted
    (Reachable.step (Reachable.step Reachable.init (@Step.enq cfg0 [] inp6 0))
      (@Step.fail cfg0 (enqueue cfg0 [] inp6 0).2 "d" "e" 1))
    deadWitnessJob (by decide) (by decide)
